import Mathlib

/-!
Verification of the local-whisper-svc streaming STT core against its
natural-language specification.

The Python sources are shallowly embedded:
* `local_agreement.py` (`LocalAgreement`) — the commit stabilizer;
* `vad.py` (`SileroVAD.process_chunk` hysteresis state machine) — the
  speech activity tracker (the neural scorer itself is an external
  collaborator, modelled as an oracle of per-chunk probabilities);
* `server.py` (`WhisperServer` command handlers) — the session
  orchestrator (ASR backend, base64 codec and the scorer are oracles).

Python strings are modelled as `List Char`, Python ints as `Int`/`Nat`,
floats (speech probabilities, confidences) as `ℚ`.
-/

namespace Whisper

/-- Python strings, viewed as character sequences. -/
abbrev Text := List Char

/-! ## local_agreement.py -/

/-- Embeds the `AgreementResult` dataclass. -/
structure AgreementResult where
  text : Text
  is_final : Bool
  committed : Text := []
  deriving DecidableEq, Repr

/-- Embeds the mutable state of a `LocalAgreement` instance:
constructor parameters `k`, `n`, `min_new_chars` together with the
`history` list and the committed text (field `committed_prefix` in the
source). -/
structure LocalAgreement where
  k : Nat
  n : Nat
  min_new_chars : Int
  history : List Text := []
  committed : Text := []
  deriving DecidableEq, Repr

/-- A fresh `LocalAgreement(k, n, min_new_chars)`. -/
def LocalAgreement.mk0 (k n : Nat) (min_new_chars : Int) : LocalAgreement :=
  { k := k, n := n, min_new_chars := min_new_chars, history := [], committed := [] }

/-- Auxiliary for `_longest_common_prefix`: extends the prefix while the
head character of the first string agrees with the head of every other
string (the loop `for i in range(min_len): ... else break`, which stops
at the shortest string and at the first disagreeing position). -/
def lcpAll : Text → List Text → Text
  | [], _ => []
  | c :: cs, others =>
      if others.all (fun t => t.head? = some c) then
        c :: lcpAll cs (others.map List.tail)
      else []

/-- Embeds `LocalAgreement._longest_common_prefix`. -/
def lcp : List Text → Text
  | [] => []
  | [s] => s
  | s :: t :: rest => lcpAll s (t :: rest)

/-- Embeds Python's `str.rstrip()` (drop trailing whitespace). -/
def rstrip (t : Text) : Text :=
  (t.reverse.dropWhile (fun c => c.isWhitespace)).reverse

/-- Index of the last `' '` in a text, or `none`: embeds
`text.rfind(" ")` (with `none` for the `-1` result). -/
def rfindSpace : Text → Option Nat
  | [] => none
  | c :: cs =>
      match rfindSpace cs with
      | some i => some (i + 1)
      | none => if c = ' ' then some 0 else none

/-- Embeds `LocalAgreement._trim_to_word_boundary`. -/
def trim_to_word_boundary (text : Text) : Text :=
  if text = [] then text
  else
    match rfindSpace text with
    | none => text
    | some last_space => rstrip (text.take (last_space + 1))

/-- Embeds Python's `l[-n:]` slice on lists (for `n = 0` the slice is
the whole list; otherwise the last `n` elements). -/
def pySliceLast (l : List Text) (n : Nat) : List Text :=
  if n = 0 then l else l.drop (l.length - n)

/-- The history update at the top of `LocalAgreement.process`:
`self.history.append(text)` followed by a single `pop(0)` once the
length exceeds `k`. -/
def pushHistory (s : LocalAgreement) (text : Text) : List Text :=
  if (s.history ++ [text]).length > s.k then (s.history ++ [text]).tail
  else s.history ++ [text]

/-- The trimmed longest common prefix of the last `n` history entries
(`_trim_to_word_boundary(self._longest_common_prefix(self.history[-self.n:]))`). -/
def trimmedLcp (history : List Text) (n : Nat) : Text :=
  trim_to_word_boundary (lcp (pySliceLast history n))

/-- Embeds `LocalAgreement.process`; returns the result together with
the updated state. -/
def LocalAgreement.process (s : LocalAgreement) (text : Text) :
    AgreementResult × LocalAgreement :=
  if (pushHistory s text).length < s.n then
    (⟨text, false, s.committed⟩, { s with history := pushHistory s text })
  else if ((trimmedLcp (pushHistory s text) s.n).length : Int) >
      (s.committed.length : Int) + s.min_new_chars then
    (⟨trimmedLcp (pushHistory s text) s.n, true, trimmedLcp (pushHistory s text) s.n⟩,
      { s with history := pushHistory s text,
               committed := trimmedLcp (pushHistory s text) s.n })
  else
    (⟨text, false, s.committed⟩, { s with history := pushHistory s text })

/-- Embeds `LocalAgreement.force_commit`; returns the optional result
together with the updated state. -/
def LocalAgreement.force_commit (s : LocalAgreement) :
    Option AgreementResult × LocalAgreement :=
  match s.history.getLast? with
  | none => (none, s)
  | some text =>
      if text.length ≤ s.committed.length then (none, s)
      else (some ⟨text, true, text⟩, { s with committed := text, history := [] })

/-- Embeds `LocalAgreement.reset`. -/
def LocalAgreement.reset (s : LocalAgreement) : LocalAgreement :=
  { s with history := [], committed := [] }

/-! ### Operation sequences on the commit stabilizer -/

/-- A stabilizer operation: `process(text)` or `force_commit()`. -/
inductive AgOp where
  | proc (text : Text)
  | fc
  deriving DecidableEq

/-- State effect of one stabilizer operation. -/
def AgOp.apply (s : LocalAgreement) : AgOp → LocalAgreement
  | .proc t => (s.process t).2
  | .fc => s.force_commit.2

/-- State after a sequence of stabilizer operations. -/
def runOps (s : LocalAgreement) (ops : List AgOp) : LocalAgreement :=
  ops.foldl AgOp.apply s

/-- A stabilizer operation without `force_commit`: `process(text)` or
`reset()`. -/
inductive PROp where
  | proc (text : Text)
  | rst
  deriving DecidableEq

/-- State effect of one `process`/`reset` operation. -/
def PROp.apply (s : LocalAgreement) : PROp → LocalAgreement
  | .proc t => (s.process t).2
  | .rst => s.reset

/-- State after a sequence of `process`/`reset` operations. -/
def runPR (s : LocalAgreement) (ops : List PROp) : LocalAgreement :=
  ops.foldl PROp.apply s

/-- The committed text never ends with a space character. -/
def WordSafe (t : Text) : Prop := t.getLast? ≠ some ' '

instance (t : Text) : Decidable (WordSafe t) :=
  inferInstanceAs (Decidable (t.getLast? ≠ some ' '))

/-- Explicit-witness prefix relation on texts. -/
def Pfx (a b : Text) : Prop := ∃ t, a ++ t = b

/-! ## vad.py -/

/-- The `event_type` strings of `VADEvent`. -/
inductive VADEventType where
  | speech_start
  | speech_end
  | speech
  deriving DecidableEq, Repr

/-- Embeds the `VADEvent` dataclass. -/
structure VADEvent where
  event_type : VADEventType
  timestamp_ms : Int
  confidence : ℚ
  deriving DecidableEq, Repr

/-- Embeds the mutable state of a `SileroVAD` instance: constructor
parameters `threshold`, `min_speech_ms`, `min_silence_ms` together
with the hysteresis fields.  The torch model itself is an external
collaborator; its per-chunk probability output is supplied by an
oracle where needed. -/
structure SileroVAD where
  threshold : ℚ
  min_speech_ms : Int
  min_silence_ms : Int
  is_speaking : Bool
  speech_start_ms : Option Int
  silence_start_ms : Option Int
  current_ms : Int
  deriving DecidableEq, Repr

/-- A fresh `SileroVAD(threshold, min_speech_ms, min_silence_ms)`. -/
def SileroVAD.mk0 (threshold : ℚ) (min_speech_ms min_silence_ms : Int) :
    SileroVAD :=
  ⟨threshold, min_speech_ms, min_silence_ms, false, none, none, 0⟩

/-- Embeds `SileroVAD.process_chunk`, given the scorer's probability
for this chunk (`speech_prob = self.model(...)`) and the chunk's
duration in milliseconds.  Returns the updated state and the emitted
events, in emission order. -/
def SileroVAD.process_chunk (v : SileroVAD) (speech_prob : ℚ)
    (chunk_ms : Int) : SileroVAD × List VADEvent :=
  if v.threshold ≤ speech_prob then
    if v.is_speaking = false then
      if v.min_speech_ms ≤
          v.current_ms - v.speech_start_ms.getD v.current_ms + chunk_ms then
        ({ v with silence_start_ms := none,
                  speech_start_ms := some (v.speech_start_ms.getD v.current_ms),
                  is_speaking := true,
                  current_ms := v.current_ms + chunk_ms },
          [⟨.speech_start, v.speech_start_ms.getD v.current_ms, speech_prob⟩,
           ⟨.speech, v.current_ms, speech_prob⟩])
      else
        ({ v with silence_start_ms := none,
                  speech_start_ms := some (v.speech_start_ms.getD v.current_ms),
                  current_ms := v.current_ms + chunk_ms },
          [⟨.speech, v.current_ms, speech_prob⟩])
    else
      ({ v with silence_start_ms := none,
                current_ms := v.current_ms + chunk_ms },
        [⟨.speech, v.current_ms, speech_prob⟩])
  else
    if v.is_speaking = true then
      if v.min_silence_ms ≤
          v.current_ms - v.silence_start_ms.getD v.current_ms + chunk_ms then
        ({ v with speech_start_ms := none,
                  is_speaking := false,
                  silence_start_ms := none,
                  current_ms := v.current_ms + chunk_ms },
          [⟨.speech_end, v.current_ms, 1 - speech_prob⟩])
      else
        ({ v with speech_start_ms := none,
                  silence_start_ms := some (v.silence_start_ms.getD v.current_ms),
                  current_ms := v.current_ms + chunk_ms },
          [])
    else
      ({ v with speech_start_ms := none,
                current_ms := v.current_ms + chunk_ms },
        [])

/-- Embeds `SileroVAD.reset` (the call to the scorer's
`reset_states()` is external). -/
def SileroVAD.reset (v : SileroVAD) : SileroVAD :=
  { v with is_speaking := false, speech_start_ms := none,
           silence_start_ms := none, current_ms := 0 }

/-- One chunk of the probability stream: scorer probability and chunk
duration in milliseconds. -/
abbrev VChunk := ℚ × Int

/-- State after one chunk. -/
def stepVAD (v : SileroVAD) (c : VChunk) : SileroVAD :=
  (v.process_chunk c.1 c.2).1

/-- Events emitted for one chunk. -/
def eventsAt (v : SileroVAD) (c : VChunk) : List VADEvent :=
  (v.process_chunk c.1 c.2).2

/-- State after feeding a chunk stream in order. -/
def runVAD (v : SileroVAD) (cs : List VChunk) : SileroVAD :=
  cs.foldl stepVAD v

/-- The trailing run of consecutive above-threshold chunks (in reverse
order, which does not matter for duration sums). -/
def aboveRun (θ : ℚ) (cs : List VChunk) : List VChunk :=
  cs.reverse.takeWhile (fun c => decide (θ ≤ c.1))

/-- The trailing run of consecutive below-threshold chunks. -/
def belowRun (θ : ℚ) (cs : List VChunk) : List VChunk :=
  cs.reverse.takeWhile (fun c => decide (c.1 < θ))

/-- Total duration of a chunk list. -/
def durSum (cs : List VChunk) : Int :=
  (cs.map Prod.snd).sum

/-- Whether an event of the given kind was emitted. -/
def hasEvent (evs : List VADEvent) (t : VADEventType) : Bool :=
  evs.any (fun e => e.event_type == t)

/-- The reachability invariant tying a `SileroVAD` state to the chunk
stream that produced it: the virtual clock is the total duration, a
pending speech candidate marks the start of the trailing
above-threshold run, and a pending silence candidate (only while
speaking) marks the start of the trailing below-threshold run. -/
def VADInv (cs : List VChunk) (v : SileroVAD) : Prop :=
  v.current_ms = durSum cs ∧
  (v.is_speaking = false →
    v.silence_start_ms = none ∧
    (aboveRun v.threshold cs = [] → v.speech_start_ms = none) ∧
    (aboveRun v.threshold cs ≠ [] →
      v.speech_start_ms =
        some (durSum cs - durSum (aboveRun v.threshold cs)))) ∧
  (v.is_speaking = true →
    (belowRun v.threshold cs = [] → v.silence_start_ms = none) ∧
    (belowRun v.threshold cs ≠ [] →
      v.silence_start_ms =
        some (durSum cs - durSum (belowRun v.threshold cs))))

/-! ## protocol.py -/

/-- Embeds the `WordInfo` dataclass (`end` is a Lean keyword, so the
field is called `stop`; seconds are modelled as rationals). -/
structure WordInfo where
  word : Text
  start : ℚ
  stop : ℚ
  confidence : ℚ
  deriving DecidableEq, Repr

/-- Embeds `TranscriptionResult` from `whisper_engine.py` (the
`duration_seconds` field, derived from the audio length, is not used
by the server handlers and is omitted). -/
structure TranscriptionResult where
  text : Text
  language : String
  language_confidence : ℚ
  words : List WordInfo
  deriving DecidableEq, Repr

/-- Embeds the `StartCommand` dataclass. -/
structure StartCommand where
  session_id : String
  source_lang : String
  auto_detect_langs : List String
  phrase_hints : List String
  initial_prompt : String
  deriving DecidableEq, Repr

/-- Embeds the `AudioCommand` dataclass (the base64 payload stays an
opaque string; decoding is an external library call, see `Oracle`). -/
structure AudioCommand where
  session_id : String
  pcm_b64 : String
  deriving DecidableEq, Repr

/-- Embeds the `StopCommand` dataclass. -/
structure StopCommand where
  session_id : String
  deriving DecidableEq, Repr

/-- The three parsed command kinds. -/
inductive Command where
  | start (c : StartCommand)
  | audio (c : AudioCommand)
  | stop (c : StopCommand)
  deriving DecidableEq, Repr

/-- The fields `parse_command` reads from a decoded JSON object
(`data.get(...)` / `data[...]`; `none` models an absent key). -/
structure JObj where
  cmd : Option String
  session_id : Option String
  pcm_b64 : Option String
  source_lang : Option String
  auto_detect_langs : Option (List String)
  phrase_hints : Option (List String)
  initial_prompt : Option String
  deriving DecidableEq, Repr

/-- An inbound line: either unparsable (`json.loads` raises) or a
decoded JSON object. -/
inductive JLine where
  | malformed
  | obj (o : JObj)
  deriving DecidableEq, Repr

/-- Embeds `parse_command`: a missing required key raises `KeyError`,
which the function catches and turns into `None`, exactly like a
`JSONDecodeError`; an unrecognized `cmd` value hits the `else` branch
and also returns `None`. -/
def parse_command : JLine → Option Command
  | .malformed => none
  | .obj o =>
      match o.cmd with
      | some "START" =>
          match o.session_id with
          | some sid =>
              some (.start ⟨sid, o.source_lang.getD "en-US",
                o.auto_detect_langs.getD [], o.phrase_hints.getD [],
                o.initial_prompt.getD ""⟩)
          | none => none
      | some "AUDIO" =>
          match o.session_id, o.pcm_b64 with
          | some sid, some p => some (.audio ⟨sid, p⟩)
          | _, _ => none
      | some "STOP" =>
          match o.session_id with
          | some sid => some (.stop ⟨sid⟩)
          | none => none
      | _ => none

/-- The outbound responses (Ready / Partial / Final / Error); the
`interim` constructor embeds `PartialResponse`. -/
inductive Resp where
  | ready (session_id : String)
  | interim (session_id : String) (text : Text) (language : String)
      (confidence : ℚ)
  | final (session_id : String) (text : Text) (language : String)
      (words : List WordInfo) (committed : Text) (tts_final : Bool)
  | error (session_id : String) (error : String)
  deriving DecidableEq, Repr

/-! ## server.py -/

/-- Embeds the `Session` dataclass; `audio_buffer` is the raw PCM byte
string, modelled as a list of bytes. -/
structure Session where
  session_id : String
  source_lang : String
  auto_detect_langs : List String
  phrase_hints : List String
  initial_prompt : String
  agreement : LocalAgreement
  audio_buffer : List Nat
  is_active : Bool
  last_activity_ms : Int
  deriving DecidableEq, Repr

/-- Embeds the mutable state of a `WhisperServer`: the session dict,
the single shared `SileroVAD` instance, and the numeric configuration
set in `__init__` / read from the environment in `_handle_start`
(`agreement_*` from `WHISPER_AGREEMENT_*`, the `_chunk_samples` /
`_min_transcribe_samples` / `_max_transcribe_samples` literals). -/
structure ServerState where
  sessions : List (String × Session)
  vad : SileroVAD
  agreement_k : Nat
  agreement_n : Nat
  agreement_min_chars : Int
  chunk_samples : Nat
  min_transcribe_samples : Nat
  max_transcribe_samples : Nat
  deriving DecidableEq, Repr

/-- Key lookup in the session dict, modelled as an association list. -/
def lookupL (l : List (String × Session)) (sid : String) : Option Session :=
  (l.find? (fun kv => kv.1 == sid)).map Prod.snd

/-- Key update/insert in the session dict (replace an existing entry,
else append). -/
def updateL (l : List (String × Session)) (sid : String) (s : Session) :
    List (String × Session) :=
  if l.any (fun kv => kv.1 == sid) then
    l.map (fun kv => if kv.1 == sid then (sid, s) else kv)
  else l ++ [(sid, s)]

/-- Key removal from the session dict. -/
def eraseL (l : List (String × Session)) (sid : String) :
    List (String × Session) :=
  l.filter (fun kv => kv.1 != sid)

/-- `self.sessions.get(sid)`. -/
def lookupSession (srv : ServerState) (sid : String) : Option Session :=
  lookupL srv.sessions sid

/-- `self.sessions[sid] = s`. -/
def setSession (srv : ServerState) (sid : String) (s : Session) : ServerState :=
  { srv with sessions := updateL srv.sessions sid s }

/-- `del self.sessions[sid]`. -/
def eraseSession (srv : ServerState) (sid : String) : ServerState :=
  { srv with sessions := eraseL srv.sessions sid }

/-- The external collaborators of one command invocation: the base64
codec, the Voice Activity Scorer's per-chunk probability (indexed by
chunk number within this call; `.error` models a raised exception),
and the ASR backend's `transcribe` outcome for this call. -/
structure Oracle where
  b64decode : String → Option (List Nat)
  score : Nat → Except String ℚ
  transcribe : Except String TranscriptionResult

/-- Decidable equality for `Except` results, used to evaluate the
embedding at concrete inputs. -/
instance {e a : Type} [DecidableEq e] [DecidableEq a] :
    DecidableEq (Except e a) := fun x y =>
  match x, y with
  | .error e₁, .error e₂ =>
      if h : e₁ = e₂ then .isTrue (by rw [h])
      else .isFalse (fun hc => h (Except.error.inj hc))
  | .ok x₁, .ok y₁ =>
      if h : x₁ = y₁ then .isTrue (by rw [h])
      else .isFalse (fun hc => h (Except.ok.inj hc))
  | .error _, .ok _ => .isFalse (fun hc => Except.noConfusion hc)
  | .ok _, .error _ => .isFalse (fun hc => Except.noConfusion hc)

/-- Number of 512-sample (32 ms) chunks `process_audio` iterates over
for `n` samples (`range(0, n, 512)` with padding of the last chunk). -/
def numVadChunks (n : Nat) : Nat := (n + 511) / 512

/-- Embeds the loop of `SileroVAD.process_audio` at the scorer
boundary: chunk `i` is scored by the oracle and fed to
`process_chunk` with a 32 ms duration; a scorer failure aborts the
loop, keeping the state mutations of the chunks already processed. -/
def process_audio_run (v : SileroVAD) (score : Nat → Except String ℚ) :
    Nat → Nat → Except String (List VADEvent) × SileroVAD
  | _, 0 => (.ok [], v)
  | i, n + 1 =>
      match score i with
      | .error e => (.error e, v)
      | .ok p =>
          match process_audio_run (v.process_chunk p 32).1 score (i + 1) n with
          | (.ok evs2, v2) => (.ok ((v.process_chunk p 32).2 ++ evs2), v2)
          | (.error e, v2) => (.error e, v2)

/-- Embeds `WhisperServer._handle_start`. -/
def handle_start (srv : ServerState) (cmd : StartCommand) :
    Resp × ServerState :=
  (Resp.ready cmd.session_id,
   setSession srv cmd.session_id
     { session_id := cmd.session_id
       source_lang := cmd.source_lang
       auto_detect_langs := cmd.auto_detect_langs
       phrase_hints := cmd.phrase_hints
       initial_prompt := cmd.initial_prompt
       agreement := LocalAgreement.mk0 srv.agreement_k srv.agreement_n
         srv.agreement_min_chars
       audio_buffer := []
       is_active := true
       last_activity_ms := 0 })

/-- The tail of `_handle_audio` after the silence check: feed the
hypothesis to `LocalAgreement.process`, trim the buffer to the last
five seconds on a final, and build the Final/Partial response. -/
def audio_continue (srv : ServerState) (cmd : AudioCommand)
    (session : Session) (result : TranscriptionResult) :
    Except String (Option Resp) × ServerState :=
  let pr := session.agreement.process result.text
  if pr.1.is_final = true then
    let keep_bytes := 16000 * 5 * 2
    let new_buffer :=
      if session.audio_buffer.length > keep_bytes then
        session.audio_buffer.drop (session.audio_buffer.length - keep_bytes)
      else session.audio_buffer
    (.ok (some (.final cmd.session_id pr.1.text result.language result.words
        pr.1.committed false)),
      setSession srv cmd.session_id
        { session with agreement := pr.2, audio_buffer := new_buffer })
  else
    (.ok (some (.interim cmd.session_id pr.1.text result.language
        result.language_confidence)),
      setSession srv cmd.session_id { session with agreement := pr.2 })

/-- Embeds `WhisperServer._handle_audio`.  `Except.error` models an
exception escaping the handler (there is no `try` around the scorer or
`transcribe` call); state mutations made before the raise persist. -/
def handle_audio (srv : ServerState) (cmd : AudioCommand) (orc : Oracle) :
    Except String (Option Resp) × ServerState :=
  match lookupSession srv cmd.session_id with
  | none => (.ok (some (.error cmd.session_id "Session not found")), srv)
  | some session0 =>
    if session0.is_active = false then (.ok none, srv)
    else
      match orc.b64decode cmd.pcm_b64 with
      | none => (.ok (some (.error cmd.session_id "Invalid base64 audio")), srv)
      | some pcm_bytes =>
        let session := { session0 with
          audio_buffer := session0.audio_buffer ++ pcm_bytes }
        let srv1 := setSession srv cmd.session_id session
        if session.audio_buffer.length / 2 < srv1.min_transcribe_samples then
          (.ok none, srv1)
        else
          let transcribe_len := min session.audio_buffer.length
            (srv1.max_transcribe_samples * 2)
          let audio_samples := transcribe_len / 2
          let vad_len := min srv1.chunk_samples audio_samples
          match process_audio_run srv1.vad orc.score 0 (numVadChunks vad_len) with
          | (.error e, v2) => (.error e, { srv1 with vad := v2 })
          | (.ok vad_events, v2) =>
            let srv2 := { srv1 with vad := v2 }
            match orc.transcribe with
            | .error e => (.error e, srv2)
            | .ok result =>
              if (!v2.is_speaking) && hasEvent vad_events .speech_end then
                match session.agreement.force_commit with
                | (some commit_result, ag2) =>
                  if commit_result.text ≠ [] then
                    (.ok (some (.final cmd.session_id commit_result.text
                        result.language result.words commit_result.committed
                        true)),
                      setSession { srv2 with vad := v2.reset } cmd.session_id
                        { session with agreement := ag2, audio_buffer := [] })
                  else
                    audio_continue (setSession srv2 cmd.session_id
                        { session with agreement := ag2 }) cmd
                      { session with agreement := ag2 } result
                | (none, ag2) =>
                    audio_continue (setSession srv2 cmd.session_id
                        { session with agreement := ag2 }) cmd
                      { session with agreement := ag2 } result
              else
                audio_continue srv2 cmd session result

/-- Embeds `WhisperServer._handle_stop`.  A `transcribe` failure during
the flush escapes before the session is removed and before the shared
tracker is reset. -/
def handle_stop (srv : ServerState) (cmd : StopCommand) (orc : Oracle) :
    Except String (Option Resp) × ServerState :=
  match lookupSession srv cmd.session_id with
  | none => (.ok none, srv)
  | some session =>
    if session.audio_buffer ≠ [] then
      match session.agreement.force_commit with
      | (some commit_result, ag2) =>
        if commit_result.text ≠ [] then
          match orc.transcribe with
          | .error e =>
              (.error e,
                setSession srv cmd.session_id { session with agreement := ag2 })
          | .ok result =>
              (.ok (some (.final cmd.session_id commit_result.text
                  result.language result.words commit_result.committed true)),
                { eraseSession
                    (setSession srv cmd.session_id
                      { session with agreement := ag2, is_active := false })
                    cmd.session_id with vad := srv.vad.reset })
        else
          (.ok none,
            { eraseSession
                (setSession srv cmd.session_id
                  { session with agreement := ag2, is_active := false })
                cmd.session_id with vad := srv.vad.reset })
      | (none, _) =>
          (.ok none,
            { eraseSession srv cmd.session_id with vad := srv.vad.reset })
    else
      (.ok none, { eraseSession srv cmd.session_id with vad := srv.vad.reset })

/-- Embeds `WhisperServer._process_command`: an unparsable line (which
includes unrecognized command names, since `parse_command` collapses
them to `None`) produces the Error response; otherwise dispatch. -/
def process_command (srv : ServerState) (line : JLine) (orc : Oracle) :
    Except String (Option Resp) × ServerState :=
  match parse_command line with
  | none => (.ok (some (.error "unknown" "Invalid command format")), srv)
  | some (.start c) =>
      ((.ok (some (handle_start srv c).1)), (handle_start srv c).2)
  | some (.audio c) => handle_audio srv c orc
  | some (.stop c) => handle_stop srv c orc

/-- One iteration of `_handle_client`'s read loop for a nonempty line:
returns the response written (if any), whether the loop continues
(an escaping exception is caught around the whole loop and ends the
connection), and the new server state. -/
def client_step (srv : ServerState) (line : JLine) (orc : Oracle) :
    Option Resp × Bool × ServerState :=
  match process_command srv line orc with
  | (.ok r, srv2) => (r, true, srv2)
  | (.error _, srv2) => (none, false, srv2)

/-! ### Concrete states used by counterexamples and witnesses -/

/-- An oracle whose base64 codec decodes everything to the empty byte
string and whose scorer and backend raise. -/
def exOracleFail : Oracle :=
  { b64decode := fun _ => some []
    score := fun _ => .error "scorer failure"
    transcribe := .error "backend failure" }

/-- A session with one second of buffered audio (32000 bytes). -/
def exSession1 : Session :=
  { session_id := "s1", source_lang := "en", auto_detect_langs := [],
    phrase_hints := [], initial_prompt := ""
    agreement := LocalAgreement.mk0 3 2 10
    audio_buffer := List.replicate 32000 0
    is_active := true, last_activity_ms := 0 }

/-- A server holding `exSession1`, with the numeric configuration of
`WhisperServer.__init__` and the agreement defaults. -/
def exServerC3 : ServerState :=
  { sessions := [("s1", exSession1)]
    vad := SileroVAD.mk0 1 250 300
    agreement_k := 3, agreement_n := 2, agreement_min_chars := 10
    chunk_samples := 4000, min_transcribe_samples := 16000
    max_transcribe_samples := 480000 }

/-- The AUDIO command/line addressed to `exSession1`. -/
def exAudioCmd : AudioCommand := ⟨"s1", ""⟩

/-- The same command as an inbound JSON line. -/
def exAudioLine : JLine :=
  .obj ⟨some "AUDIO", some "s1", some "", none, none, none, none⟩

/-- An empty-buffer session named "A". -/
def exSessionA : Session :=
  { session_id := "A", source_lang := "en", auto_detect_langs := [],
    phrase_hints := [], initial_prompt := ""
    agreement := LocalAgreement.mk0 3 2 10
    audio_buffer := []
    is_active := true, last_activity_ms := 0 }

/-- An empty-buffer session named "B". -/
def exSessionB : Session :=
  { exSessionA with session_id := "B" }

/-- A server holding sessions "A" and "B" whose shared tracker is
mid-speech with a nonzero clock. -/
def exServerC5 : ServerState :=
  { sessions := [("A", exSessionA), ("B", exSessionB)]
    vad := { (SileroVAD.mk0 1 250 300) with
             is_speaking := true
             current_ms := 100 }
    agreement_k := 3, agreement_n := 2, agreement_min_chars := 10
    chunk_samples := 4000, min_transcribe_samples := 16000
    max_transcribe_samples := 480000 }

/-- A well-formed line with an unrecognized command name. -/
def exPingLine : JLine :=
  .obj ⟨some "PING", some "s1", none, none, none, none, none⟩

/-- An empty server. -/
def exServerEmpty : ServerState :=
  { sessions := []
    vad := SileroVAD.mk0 1 250 300
    agreement_k := 3, agreement_n := 2, agreement_min_chars := 10
    chunk_samples := 4000, min_transcribe_samples := 16000
    max_transcribe_samples := 480000 }

end Whisper

namespace Whisper

/-! ### Basic facts about the stabilizer helpers -/

theorem Pfx.refl (a : Text) : Pfx a a := ⟨[], List.append_nil a⟩

theorem Pfx.nil (a : Text) : Pfx [] a := ⟨a, rfl⟩

theorem Pfx.trans {a b c : Text} (h₁ : Pfx a b) (h₂ : Pfx b c) : Pfx a c := by
  obtain ⟨t₁, rfl⟩ := h₁
  obtain ⟨t₂, rfl⟩ := h₂
  exact ⟨t₁ ++ t₂, (List.append_assoc a t₁ t₂).symm⟩

theorem Pfx.take (a : Text) (n : Nat) : Pfx (a.take n) a :=
  ⟨a.drop n, List.take_append_drop n a⟩

theorem Pfx.cons {a b : Text} (c : Char) (h : Pfx a b) : Pfx (c :: a) (c :: b) := by
  obtain ⟨t, rfl⟩ := h
  exact ⟨t, rfl⟩

theorem rstrip_pfx (t : Text) : Pfx (rstrip t) t := by
  refine ⟨(t.reverse.takeWhile (fun c => c.isWhitespace)).reverse, ?_⟩
  rw [rstrip, ← List.reverse_append, List.takeWhile_append_dropWhile, List.reverse_reverse]

theorem trim_pfx (t : Text) : Pfx (trim_to_word_boundary t) t := by
  rw [trim_to_word_boundary]
  split
  · exact Pfx.refl t
  · split
    · exact Pfx.refl t
    · exact (rstrip_pfx _).trans (Pfx.take t _)

theorem lcpAll_pfx_head (s : Text) : ∀ others, Pfx (lcpAll s others) s := by
  induction s with
  | nil => intro others; exact Pfx.nil []
  | cons c cs ih =>
      intro others
      rw [lcpAll]
      split
      · exact Pfx.cons c (ih _)
      · exact Pfx.nil _

theorem lcpAll_pfx_mem (s : Text) :
    ∀ others, ∀ u ∈ others, Pfx (lcpAll s others) u := by
  induction s with
  | nil => intro others u _; exact Pfx.nil u
  | cons c cs ih =>
      intro others u hu
      rw [lcpAll]
      split
      · rename_i hall
        have hu' : u.head? = some c := by
          have := List.all_eq_true.mp hall u hu
          simpa using this
        obtain ⟨u', rfl⟩ : ∃ u', u = c :: u' := by
          cases u with
          | nil => simp at hu'
          | cons x xs => simp at hu'; exact ⟨xs, by rw [hu']⟩
        exact Pfx.cons c (ih (others.map List.tail) u'
          (by simpa using List.mem_map_of_mem List.tail hu))
      · exact Pfx.nil u

/-- The longest common prefix is a prefix of every input string. -/
theorem lcp_pfx_mem (l : List Text) : ∀ u ∈ l, Pfx (lcp l) u := by
  intro u hu
  cases l with
  | nil => simp at hu
  | cons s rest =>
      cases rest with
      | nil =>
          rw [lcp]
          rcases List.mem_singleton.mp hu with rfl
          exact Pfx.refl u
      | cons t rest' =>
          rw [lcp]
          rcases List.mem_cons.mp hu with rfl | h
          · exact lcpAll_pfx_head u _
          · exact lcpAll_pfx_mem s _ u h

theorem head?_dropWhile_not (p : Char → Bool) (l : Text) :
    ∀ c, (l.dropWhile p).head? = some c → p c = false := by
  induction l with
  | nil => intro c h; simp at h
  | cons x xs ih =>
      intro c h
      rw [List.dropWhile_cons] at h
      by_cases hp : p x
      · simp only [hp, if_true] at h
        exact ih c h
      · rw [if_neg hp, List.head?_cons] at h
        injection h with h
        subst h
        simpa using hp

theorem getLast?_rev (l : Text) : l.reverse.getLast? = l.head? := by
  cases l with
  | nil => rfl
  | cons x xs => rw [List.reverse_cons, List.getLast?_concat, List.head?_cons]

/-- `rstrip` never leaves a trailing whitespace character. -/
theorem rstrip_getLast_not_white (t : Text) (c : Char)
    (h : (rstrip t).getLast? = some c) : c.isWhitespace = false := by
  rw [rstrip, getLast?_rev] at h
  exact head?_dropWhile_not _ _ c h

theorem mem_of_getLast?_eq (l : Text) (c : Char) (h : l.getLast? = some c) :
    c ∈ l := by
  induction l with
  | nil => simp at h
  | cons x xs ih =>
      cases hxs : xs with
      | nil => subst hxs; simp at h; simp [h]
      | cons y ys =>
          subst hxs
          rw [List.getLast?_cons_cons] at h
          exact List.mem_cons_of_mem x (ih h)

theorem rfindSpace_none_not_mem (t : Text) (h : rfindSpace t = none) :
    ' ' ∉ t := by
  induction t with
  | nil => simp
  | cons x xs ih =>
      rw [rfindSpace] at h
      intro hmem
      cases hrf : rfindSpace xs with
      | some i => rw [hrf] at h; simp at h
      | none =>
          rw [hrf] at h
          rcases List.mem_cons.mp hmem with rfl | hm
          · simp at h
          · exact ih hrf hm

theorem mem_of_getLast?_any {α : Type} (l : List α) (a : α)
    (h : l.getLast? = some a) : a ∈ l := by
  induction l with
  | nil => simp at h
  | cons x xs ih =>
      cases hxs : xs with
      | nil => subst hxs; simp at h; simp [h]
      | cons y ys =>
          subst hxs
          rw [List.getLast?_cons_cons] at h
          exact List.mem_cons_of_mem x (ih h)

/-- The trimmed text is empty or does not end with a space character. -/
theorem trim_getLast_not_space (t : Text) :
    trim_to_word_boundary t = [] ∨
      ∀ c, (trim_to_word_boundary t).getLast? = some c → c ≠ ' ' := by
  rw [trim_to_word_boundary]
  split
  · left; assumption
  · split
    · rename_i hempty hnone
      right
      intro c hc hsp
      subst hsp
      exact rfindSpace_none_not_mem t hnone (mem_of_getLast?_eq t ' ' hc)
    · right
      intro c hc hsp
      have := rstrip_getLast_not_white _ c hc
      subst hsp
      simp [Char.isWhitespace] at this

end Whisper

namespace Whisper

theorem trim_wordSafe (t : Text) : WordSafe (trim_to_word_boundary t) := by
  rcases trim_getLast_not_space t with h | h
  · rw [WordSafe, h]; simp
  · intro hc
    exact (h ' ' hc) rfl

/-- `process` either leaves the whole state unchanged except for the
history push, or additionally replaces the committed text by the
trimmed LCP (and then the strict growth condition held). -/
theorem process_state_cases (s : LocalAgreement) (t : Text) :
    (s.process t).2 = { s with history := pushHistory s t } ∨
    ((s.process t).2 =
        { s with history := pushHistory s t,
                 committed := trimmedLcp (pushHistory s t) s.n } ∧
      ((trimmedLcp (pushHistory s t) s.n).length : Int) >
        (s.committed.length : Int) + s.min_new_chars) := by
  rw [LocalAgreement.process]
  split_ifs with h1 h2
  · left; rfl
  · right; exact ⟨rfl, h2⟩
  · left; rfl

theorem force_commit_state_cases (s : LocalAgreement) :
    s.force_commit.2 = s ∨
    (∃ text, s.history.getLast? = some text ∧
      s.committed.length < text.length ∧
      s.force_commit.2 = { s with committed := text, history := [] }) := by
  rw [LocalAgreement.force_commit]
  cases hl : s.history.getLast? with
  | none => left; rfl
  | some text =>
      by_cases hle : text.length ≤ s.committed.length
      · left; simp [hle]
      · right; exact ⟨text, rfl, by omega, by simp [hle]⟩

theorem agOp_apply_mono (s : LocalAgreement) (op : AgOp)
    (h : 0 ≤ s.min_new_chars) :
    s.committed.length ≤ (op.apply s).committed.length ∧
      (op.apply s).min_new_chars = s.min_new_chars := by
  cases op with
  | proc t =>
      rcases process_state_cases s t with hc | ⟨hc, hgt⟩ <;> rw [AgOp.apply, hc]
      · exact ⟨le_refl _, rfl⟩
      · refine ⟨?_, rfl⟩
        have : (s.committed.length : Int) ≤
            ((trimmedLcp (pushHistory s t) s.n).length : Int) := by omega
        exact_mod_cast this
  | fc =>
      rcases force_commit_state_cases s with hc | ⟨text, _, hlt, hc⟩ <;>
        rw [AgOp.apply, hc]
      · exact ⟨le_refl _, rfl⟩
      · exact ⟨le_of_lt hlt, rfl⟩

/-! ### Claims about the commit stabilizer -/

/-- **C1** (code_bug evidence). At `K=3, N=2, minNewChars=5`, feeding
`process` with "Hello world" and then "Hello world, how are" does NOT
produce a final result on the second call: the stable LCP
"Hello world" is trimmed to "Hello" (5 chars) and `5 > 0 + 5` fails,
so the call returns a partial with an empty committed text.  The
repository's own test `test_commit_on_stable_prefix` asserts
`is_final is True` on exactly this input. -/
theorem C1_scenario_second_call_not_final :
    ((((LocalAgreement.mk0 3 2 5).process "Hello world".toList).2).process
        "Hello world, how are".toList).1.is_final = false ∧
    ((((LocalAgreement.mk0 3 2 5).process "Hello world".toList).2).process
        "Hello world, how are".toList).1.committed = [] := by decide

/-- **C2** (counterexample). `process("Hello ")` followed by
`force_commit()` leaves a committed text "Hello " that is nonempty and
ends in a space, because `force_commit` takes the last hypothesis
verbatim without word-boundary trimming. -/
theorem C2_counterexample :
    ((((LocalAgreement.mk0 3 2 10).process "Hello ".toList).2).force_commit).2.committed
        ≠ [] ∧
    ((((LocalAgreement.mk0 3 2 10).process "Hello ".toList).2).force_commit).2.committed.getLast?
        = some ' ' := by decide

/-- **C2** (amended). For sequences of `process` and `reset` operations
(no `force_commit`), the committed text never acquires a trailing
space character: `process` only installs word-boundary-trimmed text
and `reset` clears it. -/
theorem C2_amended_no_trailing_space (s : LocalAgreement) (ops : List PROp)
    (h : WordSafe s.committed) : WordSafe (runPR s ops).committed := by
  induction ops generalizing s with
  | nil => exact h
  | cons op ops ih =>
      have step : WordSafe (PROp.apply s op).committed := by
        cases op with
        | proc t =>
            rcases process_state_cases s t with hc | ⟨hc, _⟩ <;> rw [PROp.apply, hc]
            · exact h
            · exact trim_wordSafe _
        | rst =>
            rw [PROp.apply, LocalAgreement.reset]
            intro hc; simp at hc
      exact ih _ step

/-- Witness for the amended C2 at a concrete state and operation
sequence. -/
theorem C2_amended_witness :
    WordSafe (LocalAgreement.mk0 3 2 1).committed ∧
    WordSafe (runPR (LocalAgreement.mk0 3 2 1)
      [PROp.proc "ab cd".toList, PROp.proc "ab cdx".toList]).committed :=
  ⟨by decide, C2_amended_no_trailing_space _ _ (by decide)⟩

/-- **C6**. Over any sequence of `process`/`force_commit` operations
with `min_new_chars ≥ 0` and no reset, the committed text's length is
non-decreasing. -/
theorem C6_committed_monotone (s : LocalAgreement) (ops : List AgOp)
    (h : 0 ≤ s.min_new_chars) :
    s.committed.length ≤ (runOps s ops).committed.length := by
  induction ops generalizing s with
  | nil => exact le_refl _
  | cons op ops ih =>
      have h1 := agOp_apply_mono s op h
      have h2 := ih (op.apply s) (by rw [h1.2]; exact h)
      exact le_trans h1.1 h2

/-- Witness for C6 at a concrete state and operation sequence. -/
theorem C6_witness :
    (0 : Int) ≤ (LocalAgreement.mk0 3 2 5).min_new_chars ∧
    (LocalAgreement.mk0 3 2 5).committed.length ≤
      (runOps (LocalAgreement.mk0 3 2 5)
        [AgOp.proc "hello there friend".toList, AgOp.fc]).committed.length :=
  ⟨by decide, C6_committed_monotone _ _ (by decide)⟩

/-- **C7**. `force_commit` returns `none` on empty history, `none`
when the most recent hypothesis is no longer than the committed text,
and otherwise commits that full hypothesis, clears the history and
returns a final result whose text is the new committed text. -/
theorem C7_force_commit_spec (s : LocalAgreement) :
    (s.history = [] → s.force_commit = (none, s)) ∧
    (∀ text, s.history.getLast? = some text →
      (text.length ≤ s.committed.length → s.force_commit = (none, s)) ∧
      (s.committed.length < text.length →
        s.force_commit = (some ⟨text, true, text⟩,
          { s with committed := text, history := [] }))) := by
  refine ⟨?_, ?_⟩
  · intro h
    simp [LocalAgreement.force_commit, h]
  · intro text ht
    refine ⟨?_, ?_⟩
    · intro hle
      simp [LocalAgreement.force_commit, ht, hle]
    · intro hlt
      have hn : ¬ text.length ≤ s.committed.length := by omega
      simp [LocalAgreement.force_commit, ht, hn]

/-- Witness for C7 in the committing case at a concrete state. -/
theorem C7_witness :
    ({ k := 3, n := 2, min_new_chars := 10, history := [['a']],
        committed := [] } : LocalAgreement).force_commit =
      (some ⟨['a'], true, ['a']⟩,
        { k := 3, n := 2, min_new_chars := 10, history := [],
          committed := ['a'] }) :=
  ((C7_force_commit_spec
      { k := 3, n := 2, min_new_chars := 10, history := [['a']],
        committed := [] }).2 ['a'] rfl).2 (by decide)

/-- **C9**. Whenever `force_commit` returns `none`, the state (both
history and committed text) is left exactly as it was. -/
theorem C9_force_commit_none_id (s : LocalAgreement)
    (h : s.force_commit.1 = none) : s.force_commit.2 = s := by
  cases hl : s.history.getLast? with
  | none => simp [LocalAgreement.force_commit, hl]
  | some text =>
      by_cases hle : text.length ≤ s.committed.length
      · simp [LocalAgreement.force_commit, hl, hle]
      · exfalso
        simp [LocalAgreement.force_commit, hl, hle] at h

/-- Witness for C9 at a concrete state (empty history). -/
theorem C9_witness :
    (LocalAgreement.mk0 3 2 10).force_commit.1 = none ∧
    (LocalAgreement.mk0 3 2 10).force_commit.2 = LocalAgreement.mk0 3 2 10 :=
  ⟨by decide, C9_force_commit_none_id _ (by decide)⟩

end Whisper

namespace Whisper

theorem pushHistory_cases (s : LocalAgreement) (t : Text) :
    pushHistory s t = [] ∨ (pushHistory s t).getLast? = some t := by
  rw [pushHistory]
  split
  · cases s.history with
    | nil => left; rfl
    | cons a as =>
        right
        rw [List.cons_append, List.tail_cons, List.getLast?_concat]
  · right
    rw [List.getLast?_concat]

theorem mem_pySliceLast_of_getLast (l : List Text) (n : Nat) (t : Text)
    (hl : l.getLast? = some t) (hn : n ≤ l.length) : t ∈ pySliceLast l n := by
  rw [pySliceLast]
  split
  · exact mem_of_getLast?_any l t hl
  · rename_i hn0
    have hlen : (l.drop (l.length - n)).length = n := by
      rw [List.length_drop]; omega
    have hdrop : l.drop (l.length - n) ≠ [] := by
      intro hnil
      rw [hnil] at hlen
      simp at hlen
      omega
    have hlast : (l.drop (l.length - n)).getLast? = some t := by
      rw [← hl]
      conv_rhs => rw [← List.take_append_drop (l.length - n) l]
      rw [List.getLast?_append_of_ne_nil _ hdrop]
    exact mem_of_getLast?_any _ t hlast

theorem trimmedLcp_nil (n : Nat) : trimmedLcp ([] : List Text) n = [] := by
  rw [trimmedLcp, pySliceLast]
  split
  · rfl
  · rw [List.drop_nil]
    rfl

/-- **C10**. Whenever `process` returns a final result, the new
committed text is a character-wise prefix of every one of the last `n`
entries of the updated history, and in particular of the input
hypothesis of that call. -/
theorem C10_final_committed_is_pfx (s : LocalAgreement) (text : Text)
    (h : ((s.process text).1).is_final = true) :
    (∀ u ∈ pySliceLast ((s.process text).2).history s.n,
        Pfx ((s.process text).2).committed u) ∧
    Pfx ((s.process text).2).committed text := by
  by_cases h1 : (pushHistory s text).length < s.n
  · rw [LocalAgreement.process, if_pos h1] at h
    simp at h
  · by_cases h2 : ((trimmedLcp (pushHistory s text) s.n).length : Int) >
        (s.committed.length : Int) + s.min_new_chars
    · have hp : s.process text =
          (⟨trimmedLcp (pushHistory s text) s.n, true,
              trimmedLcp (pushHistory s text) s.n⟩,
            { s with history := pushHistory s text,
                     committed := trimmedLcp (pushHistory s text) s.n }) := by
        rw [LocalAgreement.process, if_neg h1, if_pos h2]
      rw [hp]
      refine ⟨fun u hu => (trim_pfx _).trans (lcp_pfx_mem _ u hu), ?_⟩
      rcases pushHistory_cases s text with hph | hph
      · show Pfx (trimmedLcp (pushHistory s text) s.n) text
        rw [hph, trimmedLcp_nil]
        exact Pfx.nil text
      · have hn : s.n ≤ (pushHistory s text).length := by omega
        have hmem := mem_pySliceLast_of_getLast _ s.n text hph hn
        exact (trim_pfx _).trans (lcp_pfx_mem _ text hmem)
    · rw [LocalAgreement.process, if_neg h1, if_neg h2] at h
      simp at h

/-- Witness for C10 at a concrete committing call. -/
theorem C10_witness :
    (((LocalAgreement.mk0 3 2 1).process "ab cd".toList).2.process
        "ab cdx".toList).1.is_final = true ∧
    Pfx ((((LocalAgreement.mk0 3 2 1).process "ab cd".toList).2.process
        "ab cdx".toList).2).committed "ab cdx".toList :=
  ⟨by decide,
    (C10_final_committed_is_pfx
      ((LocalAgreement.mk0 3 2 1).process "ab cd".toList).2
      "ab cdx".toList (by decide)).2⟩

end Whisper

namespace Whisper

/-! ### Facts about the activity tracker -/

theorem durSum_nil : durSum ([] : List VChunk) = 0 := rfl

theorem durSum_cons (c : VChunk) (cs : List VChunk) :
    durSum (c :: cs) = c.2 + durSum cs := by
  rw [durSum, durSum, List.map_cons, List.sum_cons]

theorem durSum_snoc (cs : List VChunk) (c : VChunk) :
    durSum (cs ++ [c]) = durSum cs + c.2 := by
  rw [durSum, durSum, List.map_append, List.sum_append]
  simp

theorem aboveRun_snoc_above {θ : ℚ} {c : VChunk} (h : θ ≤ c.1)
    (cs : List VChunk) : aboveRun θ (cs ++ [c]) = c :: aboveRun θ cs := by
  rw [aboveRun, aboveRun, List.reverse_append]
  simp only [List.reverse_singleton, List.singleton_append, List.takeWhile_cons]
  rw [decide_eq_true h]
  rfl

theorem aboveRun_snoc_below {θ : ℚ} {c : VChunk} (h : c.1 < θ)
    (cs : List VChunk) : aboveRun θ (cs ++ [c]) = [] := by
  rw [aboveRun, List.reverse_append]
  simp only [List.reverse_singleton, List.singleton_append, List.takeWhile_cons]
  rw [decide_eq_false (not_le.mpr h)]
  rfl

theorem belowRun_snoc_below {θ : ℚ} {c : VChunk} (h : c.1 < θ)
    (cs : List VChunk) : belowRun θ (cs ++ [c]) = c :: belowRun θ cs := by
  rw [belowRun, belowRun, List.reverse_append]
  simp only [List.reverse_singleton, List.singleton_append, List.takeWhile_cons]
  rw [decide_eq_true h]
  rfl

theorem belowRun_snoc_above {θ : ℚ} {c : VChunk} (h : θ ≤ c.1)
    (cs : List VChunk) : belowRun θ (cs ++ [c]) = [] := by
  rw [belowRun, List.reverse_append]
  simp only [List.reverse_singleton, List.singleton_append, List.takeWhile_cons]
  rw [decide_eq_false (not_lt.mpr h)]
  rfl

theorem vadInv_init (θ : ℚ) (a b : Int) :
    VADInv [] (SileroVAD.mk0 θ a b) := by
  refine ⟨rfl, fun _ => ⟨rfl, fun _ => rfl, fun hne => ?_⟩, fun hsp => ?_⟩
  · exact absurd rfl hne
  · exact absurd hsp (by rw [SileroVAD.mk0]; simp)

theorem process_chunk_fields (v : SileroVAD) (p : ℚ) (d : Int) :
    ((v.process_chunk p d).1).threshold = v.threshold ∧
    ((v.process_chunk p d).1).min_speech_ms = v.min_speech_ms ∧
    ((v.process_chunk p d).1).min_silence_ms = v.min_silence_ms ∧
    ((v.process_chunk p d).1).current_ms = v.current_ms + d := by
  rw [SileroVAD.process_chunk]
  split_ifs <;> exact ⟨rfl, rfl, rfl, rfl⟩

end Whisper

namespace Whisper

theorem vadInv_step (cs : List VChunk) (v : SileroVAD) (c : VChunk)
    (hinv : VADInv cs v) : VADInv (cs ++ [c]) (stepVAD v c) := by
  obtain ⟨hclock, hns, hsp⟩ := hinv
  rw [stepVAD, SileroVAD.process_chunk]
  by_cases habove : v.threshold ≤ c.1
  · rw [if_pos habove]
    have hA := aboveRun_snoc_above habove cs
    have hB := belowRun_snoc_above habove cs
    cases hspk : v.is_speaking with
    | false =>
        obtain ⟨hsil, habsE, habsNE⟩ := hns hspk
        rw [if_pos rfl]
        by_cases hfire : v.min_speech_ms ≤
            v.current_ms - v.speech_start_ms.getD v.current_ms + c.2
        · rw [if_pos hfire]
          refine ⟨?_, ?_, ?_⟩ <;> dsimp only
          · rw [durSum_snoc, hclock]
          · intro h; exact absurd h (by simp)
          · intro _
            refine ⟨fun _ => rfl, fun hne => ?_⟩
            rw [hB] at hne
            exact absurd rfl hne
        · rw [if_neg hfire]
          refine ⟨?_, ?_, ?_⟩ <;> dsimp only
          · rw [durSum_snoc, hclock]
          · intro _
            refine ⟨rfl, fun h => ?_, fun _ => ?_⟩
            · rw [hA] at h; exact absurd h (by simp)
            · rw [hA, durSum_cons, durSum_snoc]
              by_cases hAe : aboveRun v.threshold cs = []
              · rw [habsE hAe, Option.getD_none, hAe, durSum_nil, hclock]
                congr 1
                omega
              · rw [habsNE hAe, Option.getD_some]
                congr 1
                omega
          · intro h; exact absurd h (by simp)
    | true =>
        rw [if_neg (by simp)]
        refine ⟨?_, ?_, ?_⟩ <;> dsimp only
        · rw [durSum_snoc, hclock]
        · intro h; exact absurd h (by simp)
        · intro _
          refine ⟨fun _ => rfl, fun hne => ?_⟩
          rw [hB] at hne
          exact absurd rfl hne
  · rw [if_neg habove]
    have hblt : c.1 < v.threshold := lt_of_not_le habove
    have hA := aboveRun_snoc_below hblt cs
    have hB := belowRun_snoc_below hblt cs
    cases hspk : v.is_speaking with
    | true =>
        obtain ⟨hbelE, hbelNE⟩ := hsp hspk
        rw [if_pos rfl]
        by_cases hfire : v.min_silence_ms ≤
            v.current_ms - v.silence_start_ms.getD v.current_ms + c.2
        · rw [if_pos hfire]
          refine ⟨?_, ?_, ?_⟩ <;> dsimp only
          · rw [durSum_snoc, hclock]
          · intro _
            refine ⟨rfl, fun _ => rfl, fun hne => ?_⟩
            rw [hA] at hne
            exact absurd rfl hne
          · intro h; exact absurd h (by simp)
        · rw [if_neg hfire]
          refine ⟨?_, ?_, ?_⟩ <;> dsimp only
          · rw [durSum_snoc, hclock]
          · intro h; exact absurd h (by simp)
          · intro _
            refine ⟨fun h => ?_, fun _ => ?_⟩
            · rw [hB] at h; exact absurd h (by simp)
            · rw [hB, durSum_cons, durSum_snoc]
              by_cases hBe : belowRun v.threshold cs = []
              · rw [hbelE hBe, Option.getD_none, hBe, durSum_nil, hclock]
                congr 1
                omega
              · rw [hbelNE hBe, Option.getD_some]
                congr 1
                omega
    | false =>
        obtain ⟨hsil, _, _⟩ := hns hspk
        rw [if_neg (by simp)]
        refine ⟨?_, ?_, ?_⟩ <;> dsimp only
        · rw [durSum_snoc, hclock]
        · intro _
          refine ⟨hsil, fun _ => rfl, fun hne => ?_⟩
          rw [hA] at hne
          exact absurd rfl hne
        · intro h; exact absurd h (by simp)

theorem vadInv_run (θ : ℚ) (a b : Int) (cs : List VChunk) :
    VADInv cs (runVAD (SileroVAD.mk0 θ a b) cs) := by
  induction cs using List.reverseRecOn with
  | nil => exact vadInv_init θ a b
  | append_singleton l c ih =>
      rw [runVAD, List.foldl_append, List.foldl_cons, List.foldl_nil]
      exact vadInv_step l _ c ih

theorem runVAD_fields (θ : ℚ) (a b : Int) (cs : List VChunk) :
    (runVAD (SileroVAD.mk0 θ a b) cs).threshold = θ ∧
    (runVAD (SileroVAD.mk0 θ a b) cs).min_speech_ms = a ∧
    (runVAD (SileroVAD.mk0 θ a b) cs).min_silence_ms = b := by
  induction cs using List.reverseRecOn with
  | nil => exact ⟨rfl, rfl, rfl⟩
  | append_singleton l c ih =>
      rw [runVAD, List.foldl_append, List.foldl_cons, List.foldl_nil]
      have h := process_chunk_fields (runVAD (SileroVAD.mk0 θ a b) l) c.1 c.2
      rw [runVAD] at ih
      exact ⟨h.1.trans ih.1, h.2.1.trans ih.2.1, h.2.2.1.trans ih.2.2⟩

end Whisper

namespace Whisper

theorem vadStep_props (cs : List VChunk) (v : SileroVAD) (c : VChunk)
    (hinv : VADInv cs v) :
    (hasEvent (eventsAt v c) .speech_start = true →
      v.min_speech_ms ≤ durSum (aboveRun v.threshold (cs ++ [c]))) ∧
    (hasEvent (eventsAt v c) .speech_end = true →
      v.min_silence_ms ≤ durSum (belowRun v.threshold (cs ++ [c])) ∧
      v.is_speaking = true) ∧
    (v.is_speaking = true → c.1 < v.threshold → c.2 < v.min_silence_ms →
      belowRun v.threshold cs = [] →
      (stepVAD v c).is_speaking = true ∧
      hasEvent (eventsAt v c) .speech_end = false) := by
  obtain ⟨hclock, hns, hsp⟩ := hinv
  rw [eventsAt, stepVAD, SileroVAD.process_chunk]
  by_cases habove : v.threshold ≤ c.1
  · rw [if_pos habove]
    have hA := aboveRun_snoc_above habove cs
    cases hspk : v.is_speaking with
    | false =>
        obtain ⟨hsil, habsE, habsNE⟩ := hns hspk
        rw [if_pos rfl]
        by_cases hfire : v.min_speech_ms ≤
            v.current_ms - v.speech_start_ms.getD v.current_ms + c.2
        · rw [if_pos hfire]
          refine ⟨fun _ => ?_, fun h => absurd h Bool.false_ne_true,
            fun h => absurd h Bool.false_ne_true⟩
          rw [hA, durSum_cons]
          by_cases hAe : aboveRun v.threshold cs = []
          · rw [habsE hAe, Option.getD_none] at hfire
            rw [hAe, durSum_nil]
            omega
          · rw [habsNE hAe, Option.getD_some] at hfire
            omega
        · rw [if_neg hfire]
          exact ⟨fun h => absurd h Bool.false_ne_true,
            fun h => absurd h Bool.false_ne_true,
            fun h => absurd h Bool.false_ne_true⟩
    | true =>
        rw [if_neg (by simp)]
        refine ⟨fun h => absurd h Bool.false_ne_true,
          fun h => absurd h Bool.false_ne_true,
          fun _ hblt _ _ => absurd habove (not_le.mpr hblt)⟩
  · rw [if_neg habove]
    have hblt : c.1 < v.threshold := lt_of_not_le habove
    have hB := belowRun_snoc_below hblt cs
    cases hspk : v.is_speaking with
    | true =>
        obtain ⟨hbelE, hbelNE⟩ := hsp hspk
        rw [if_pos rfl]
        by_cases hfire : v.min_silence_ms ≤
            v.current_ms - v.silence_start_ms.getD v.current_ms + c.2
        · rw [if_pos hfire]
          refine ⟨fun h => absurd h Bool.false_ne_true, fun _ => ⟨?_, rfl⟩,
            fun _ _ hdur hBe => ?_⟩
          · rw [hB, durSum_cons]
            by_cases hBe : belowRun v.threshold cs = []
            · rw [hbelE hBe, Option.getD_none] at hfire
              rw [hBe, durSum_nil]
              omega
            · rw [hbelNE hBe, Option.getD_some] at hfire
              omega
          · rw [hbelE hBe, Option.getD_none] at hfire
            omega
        · rw [if_neg hfire]
          refine ⟨fun h => absurd h Bool.false_ne_true,
            fun h => absurd h Bool.false_ne_true,
            fun _ _ _ _ => ⟨rfl, rfl⟩⟩
    | false =>
        rw [if_neg (by simp)]
        exact ⟨fun h => absurd h Bool.false_ne_true,
          fun h => absurd h Bool.false_ne_true,
          fun h => absurd h Bool.false_ne_true⟩

end Whisper

namespace Whisper

/-- **C8**. For a probability stream fed chunk-by-chunk from a fresh
tracker: a `speech_start` event is emitted at a step only if the
trailing run of consecutive above-threshold chunks (current chunk
included) has accumulated at least `min_speech_ms`; a `speech_end`
event only if the tracker was speaking and the trailing run of
consecutive below-threshold chunks has accumulated at least
`min_silence_ms`; and a single below-threshold chunk of duration less
than `min_silence_ms` arriving inside a speech region (no pending
silence candidate) leaves the tracker speaking and emits no
`speech_end`. -/
theorem C8_debounced_hysteresis (θ : ℚ) (a b : Int) (pre : List VChunk)
    (c : VChunk) :
    (hasEvent (eventsAt (runVAD (SileroVAD.mk0 θ a b) pre) c)
        .speech_start = true →
      a ≤ durSum (aboveRun θ (pre ++ [c]))) ∧
    (hasEvent (eventsAt (runVAD (SileroVAD.mk0 θ a b) pre) c)
        .speech_end = true →
      b ≤ durSum (belowRun θ (pre ++ [c])) ∧
      (runVAD (SileroVAD.mk0 θ a b) pre).is_speaking = true) ∧
    ((runVAD (SileroVAD.mk0 θ a b) pre).is_speaking = true →
      c.1 < θ → c.2 < b → belowRun θ pre = [] →
      (stepVAD (runVAD (SileroVAD.mk0 θ a b) pre) c).is_speaking = true ∧
      hasEvent (eventsAt (runVAD (SileroVAD.mk0 θ a b) pre) c)
        .speech_end = false) := by
  obtain ⟨hθ, ha, hb⟩ := runVAD_fields θ a b pre
  have h := vadStep_props pre (runVAD (SileroVAD.mk0 θ a b) pre) c
    (vadInv_run θ a b pre)
  rw [hθ, ha, hb] at h
  exact h

/-- Witness for C8: at threshold 1, min speech 250 ms, min silence
300 ms, three consecutive 100 ms chunks at probability 1 fire
`speech_start` on the third chunk, with 300 ms ≥ 250 ms accumulated. -/
theorem C8_witness :
    hasEvent (eventsAt (runVAD (SileroVAD.mk0 1 250 300)
        [((1:ℚ), 100), ((1:ℚ), 100)]) ((1:ℚ), 100))
      .speech_start = true ∧
    (250 : Int) ≤ durSum (aboveRun 1
        ([((1:ℚ), 100), ((1:ℚ), 100)] ++ [((1:ℚ), 100)])) :=
  ⟨by decide,
    (C8_debounced_hysteresis 1 250 300
      [((1:ℚ), 100), ((1:ℚ), 100)] ((1:ℚ), 100)).1 (by decide)⟩

end Whisper

namespace Whisper

/-! ### Session-dict lemmas -/

theorem find?_of_any_false {α : Type} (p : α → Bool) (l : List α)
    (h : l.any p = false) : l.find? p = none := by
  rw [List.find?_eq_none]
  intro x hx hpx
  have := List.any_eq_true.mpr ⟨x, hx, hpx⟩
  rw [h] at this
  exact Bool.false_ne_true this

theorem find?_append_of_none {α : Type} (p : α → Bool) (l₁ l₂ : List α)
    (h : l₁.find? p = none) : (l₁ ++ l₂).find? p = l₂.find? p := by
  induction l₁ with
  | nil => rfl
  | cons a t ih =>
      by_cases hp : p a = true
      · rw [List.find?_cons_of_pos _ hp] at h
        exact absurd h (by simp)
      · rw [List.find?_cons_of_neg _ hp] at h
        rw [List.cons_append, List.find?_cons_of_neg _ hp]
        exact ih h

theorem lookupL_updateL_self (l : List (String × Session)) (sid : String)
    (s : Session) : lookupL (updateL l sid s) sid = some s := by
  induction l with
  | nil =>
      rw [updateL]
      simp [lookupL]
  | cons kv t ih =>
      rw [updateL]
      by_cases hk : (kv.1 == sid) = true
      · rw [if_pos (by simp [List.any_cons, hk]), List.map_cons, if_pos hk,
          lookupL, List.find?_cons_of_pos _ (by simp)]
        rfl
      · by_cases hany : t.any (fun kv => kv.1 == sid) = true
        · rw [if_pos (by simp [List.any_cons, hany]), List.map_cons, if_neg hk,
            lookupL, List.find?_cons_of_neg _ (by simpa using hk)]
          rw [updateL, if_pos hany, lookupL] at ih
          exact ih
        · rw [if_neg (by simp [List.any_cons]; exact ⟨by simpa using hk,
            by simpa using hany⟩), lookupL, List.cons_append,
            List.find?_cons_of_neg _ (by simpa using hk),
            find?_append_of_none _ t _ (find?_of_any_false _ t
              (by rwa [Bool.not_eq_true] at hany)),
            List.find?_cons_of_pos _ (by simp)]
          rfl

theorem find?_map_update_ne (t : List (String × Session))
    (sid sid' : String) (s : Session) (h : sid ≠ sid') :
    (t.map (fun kv => if kv.1 == sid' then (sid', s) else kv)).find?
        (fun kv => kv.1 == sid) =
      t.find? (fun kv => kv.1 == sid) := by
  induction t with
  | nil => rfl
  | cons kv t ih =>
      rw [List.map_cons]
      by_cases hk : (kv.1 == sid') = true
      · have hkv : (kv.1 == sid) = false := by
          have he : kv.1 = sid' := by simpa using hk
          simp [he, Ne.symm h]
        rw [if_pos hk, List.find?_cons_of_neg _ (by simp [Ne.symm h]),
          List.find?_cons_of_neg _ (by simp [hkv]), ih]
      · rw [if_neg hk, List.find?_cons, List.find?_cons]
        cases kv.1 == sid with
        | true => rfl
        | false => exact ih

theorem find?_append_single_ne (t : List (String × Session))
    (sid sid' : String) (s : Session) (h : sid ≠ sid') :
    (t ++ [(sid', s)]).find? (fun kv => kv.1 == sid) =
      t.find? (fun kv => kv.1 == sid) := by
  induction t with
  | nil =>
      rw [List.nil_append, List.find?_cons_of_neg _ (by simp [Ne.symm h])]
  | cons kv t ih =>
      rw [List.cons_append, List.find?_cons, List.find?_cons]
      cases kv.1 == sid with
      | true => rfl
      | false => exact ih

theorem lookupL_updateL_ne (l : List (String × Session)) (sid sid' : String)
    (s : Session) (h : sid ≠ sid') :
    lookupL (updateL l sid' s) sid = lookupL l sid := by
  rw [updateL]
  split
  · rw [lookupL, lookupL, find?_map_update_ne l sid sid' s h]
  · rw [lookupL, lookupL, find?_append_single_ne l sid sid' s h]

theorem lookupL_eraseL_ne (l : List (String × Session)) (sid sid' : String)
    (h : sid ≠ sid') : lookupL (eraseL l sid') sid = lookupL l sid := by
  rw [eraseL, lookupL, lookupL]
  congr 1
  induction l with
  | nil => rfl
  | cons kv t ih =>
      rw [List.filter_cons]
      by_cases hkeep : (kv.1 != sid') = true
      · rw [if_pos hkeep, List.find?_cons, List.find?_cons]
        cases hkv : (kv.1 == sid) with
        | true => rfl
        | false => exact ih
      · rw [if_neg hkeep]
        have hkv1 : kv.1 = sid' := by
          have := (Bool.not_eq_true _).mp hkeep
          simpa using this
        have hkv : (kv.1 == sid) = false := by simp [hkv1, Ne.symm h]
        rw [List.find?_cons, hkv]
        exact ih

theorem lookupSession_setSession_self (srv : ServerState) (sid : String)
    (s : Session) : lookupSession (setSession srv sid s) sid = some s :=
  lookupL_updateL_self srv.sessions sid s

theorem lookupSession_setSession_ne (srv : ServerState) (sid sid' : String)
    (s : Session) (h : sid ≠ sid') :
    lookupSession (setSession srv sid' s) sid = lookupSession srv sid :=
  lookupL_updateL_ne srv.sessions sid sid' s h

theorem lookupSession_eraseSession_ne (srv : ServerState) (sid sid' : String)
    (h : sid ≠ sid') :
    lookupSession (eraseSession srv sid') sid = lookupSession srv sid :=
  lookupL_eraseL_ne srv.sessions sid sid' h

end Whisper

namespace Whisper

/-- **C4** (counterexample). A well-formed line whose command name is
"PING" (none of START/AUDIO/STOP) does NOT go unanswered: the server
sends the same Error response it sends for malformed lines, because
`parse_command` collapses unrecognized names into `None`. -/
theorem C4_counterexample :
    parse_command exPingLine = none ∧
    process_command exServerEmpty exPingLine exOracleFail =
      (Except.ok (some (Resp.error "unknown" "Invalid command format")),
        exServerEmpty) := by decide

/-- **C4** (amended). Well-formed lines with unrecognized command names
are parsed to `None`, indistinguishable from malformed lines, and both
therefore produce the "Invalid command format" Error response (with no
state change); no inbound line is silently ignored by the dispatcher. -/
theorem C4_amended_unknown_is_error :
    (∀ (o : JObj) (c : String), o.cmd = some c → c ≠ "START" →
      c ≠ "AUDIO" → c ≠ "STOP" → parse_command (JLine.obj o) = none) ∧
    (∀ (srv : ServerState) (line : JLine) (orc : Oracle),
      parse_command line = none →
      process_command srv line orc =
        (Except.ok (some (Resp.error "unknown" "Invalid command format")),
          srv)) := by
  constructor
  · intro o c hc h1 h2 h3
    rw [parse_command, hc]
    split
    · rename_i heq
      exact absurd (by injection heq) h1
    · rename_i heq
      exact absurd (by injection heq) h2
    · rename_i heq
      exact absurd (by injection heq) h3
    · rfl
  · intro srv line orc hp
    rw [process_command, hp]

/-- Witness for the amended C4 at a concrete unrecognized command. -/
theorem C4_witness :
    parse_command (JLine.obj ⟨some "NOPE", some "x", none, none, none, none,
      none⟩) = none ∧
    process_command exServerEmpty (JLine.obj ⟨some "NOPE", some "x", none,
      none, none, none, none⟩) exOracleFail =
      (Except.ok (some (Resp.error "unknown" "Invalid command format")),
        exServerEmpty) := by
  have h1 := C4_amended_unknown_is_error.1
    ⟨some "NOPE", some "x", none, none, none, none, none⟩ "NOPE" rfl
    (by decide) (by decide) (by decide)
  exact ⟨h1, C4_amended_unknown_is_error.2 exServerEmpty _ exOracleFail h1⟩

end Whisper

namespace Whisper

theorem lookupSession_vad (srv : ServerState) (v : SileroVAD) (sid : String) :
    lookupSession { srv with vad := v } sid = lookupSession srv sid := rfl

theorem audio_continue_other (X : ServerState) (cmd : AudioCommand)
    (sess : Session) (res : TranscriptionResult) (sid : String)
    (h : sid ≠ cmd.session_id) :
    lookupSession (audio_continue X cmd sess res).2 sid =
      lookupSession X sid := by
  rw [audio_continue]
  dsimp only
  split
  · exact lookupSession_setSession_ne _ _ _ _ h
  · exact lookupSession_setSession_ne _ _ _ _ h

theorem handle_audio_other (srv : ServerState) (cmd : AudioCommand)
    (orc : Oracle) (sid : String) (h : sid ≠ cmd.session_id) :
    lookupSession (handle_audio srv cmd orc).2 sid = lookupSession srv sid := by
  rw [handle_audio]
  split
  · rfl
  · split
    · rfl
    · split
      · rfl
      · dsimp only
        split
        · exact lookupSession_setSession_ne _ _ _ _ h
        · split
          · exact lookupSession_setSession_ne _ _ _ _ h
          · split
            · exact lookupSession_setSession_ne _ _ _ _ h
            · split
              · split
                · split
                  · exact (lookupSession_setSession_ne _ _ _ _ h).trans
                      (lookupSession_setSession_ne _ _ _ _ h)
                  · exact (audio_continue_other _ _ _ _ _ h).trans
                      ((lookupSession_setSession_ne _ _ _ _ h).trans
                        (lookupSession_setSession_ne _ _ _ _ h))
                · exact (audio_continue_other _ _ _ _ _ h).trans
                    ((lookupSession_setSession_ne _ _ _ _ h).trans
                      (lookupSession_setSession_ne _ _ _ _ h))
              · exact (audio_continue_other _ _ _ _ _ h).trans
                  (lookupSession_setSession_ne _ _ _ _ h)

theorem handle_stop_other (srv : ServerState) (cmd : StopCommand)
    (orc : Oracle) (sid : String) (h : sid ≠ cmd.session_id) :
    lookupSession (handle_stop srv cmd orc).2 sid = lookupSession srv sid := by
  rw [handle_stop]
  split
  · rfl
  · split
    · split
      · split
        · split
          · exact lookupSession_setSession_ne _ _ _ _ h
          · exact (lookupSession_eraseSession_ne _ _ _ h).trans
              (lookupSession_setSession_ne _ _ _ _ h)
        · exact (lookupSession_eraseSession_ne _ _ _ h).trans
            (lookupSession_setSession_ne _ _ _ _ h)
      · exact lookupSession_eraseSession_ne _ _ _ h
    · exact lookupSession_eraseSession_ne _ _ _ h

end Whisper

namespace Whisper

/-- **C5** (counterexample). The activity tracker is one server-wide
`SileroVAD` instance: with sessions "A" and "B" registered and the
shared tracker mid-speech at clock 100 ms, processing STOP for "A"
resets the tracker, so the speaking flag and virtual clock observed by
session "B" change. -/
theorem C5_counterexample :
    exServerC5.vad.current_ms = 100 ∧
    exServerC5.vad.is_speaking = true ∧
    lookupSession exServerC5 "B" = some exSessionB ∧
    (handle_stop exServerC5 ⟨"A"⟩ exOracleFail).2.vad.current_ms = 0 ∧
    (handle_stop exServerC5 ⟨"A"⟩ exOracleFail).2.vad.is_speaking = false := by
  decide

/-- **C5** (amended). Per-session `Session` records (stabilizer state,
audio buffer, activity flag) are exclusively owned: an Audio or Stop
command for one session leaves every other session's registry entry
unchanged.  The speech-activity state, however, lives in a single
shared tracker, not per session. -/
theorem C5_amended_sessions_exclusive (srv : ServerState) (sid : String)
    (cmdA : AudioCommand) (cmdS : StopCommand) (orcA orcS : Oracle)
    (hA : sid ≠ cmdA.session_id) (hS : sid ≠ cmdS.session_id) :
    lookupSession (handle_audio srv cmdA orcA).2 sid =
      lookupSession srv sid ∧
    lookupSession (handle_stop srv cmdS orcS).2 sid =
      lookupSession srv sid :=
  ⟨handle_audio_other srv cmdA orcA sid hA,
   handle_stop_other srv cmdS orcS sid hS⟩

/-- Witness for the amended C5 at a concrete two-session server. -/
theorem C5_witness :
    ("B" : String) ≠ "A" ∧
    lookupSession (handle_audio exServerC5 ⟨"A", ""⟩ exOracleFail).2 "B" =
      lookupSession exServerC5 "B" ∧
    lookupSession (handle_stop exServerC5 ⟨"A"⟩ exOracleFail).2 "B" =
      lookupSession exServerC5 "B" := by
  have h := C5_amended_sessions_exclusive exServerC5 "B" ⟨"A", ""⟩ ⟨"A"⟩
    exOracleFail exOracleFail (by decide) (by decide)
  exact ⟨by decide, h.1, h.2⟩

end Whisper

namespace Whisper

theorem process_audio_run_err0 (v : SileroVAD) (e : String)
    (score : Nat → Except String ℚ) (n : Nat) (hn : 0 < n)
    (hs : score 0 = .error e) :
    process_audio_run v score 0 n = (.error e, v) := by
  cases n with
  | zero => exact absurd hn (by simp)
  | succ m =>
      rw [process_audio_run, hs]

theorem client_step_error (srv : ServerState) (line : JLine) (orc : Oracle)
    (e : String) (h : (process_command srv line orc).1 = Except.error e) :
    client_step srv line orc =
      (none, false, (process_command srv line orc).2) := by
  rw [client_step]
  cases hp : process_command srv line orc with
  | mk r s =>
      rw [hp] at h
      cases r with
      | ok v => exact absurd h (by simp)
      | error e₂ => rfl

theorem setSession_vad_eq (srv : ServerState) (sid : String) (s : Session) :
    (setSession srv sid s).vad = srv.vad := rfl

theorem setSession_min_eq (srv : ServerState) (sid : String) (s : Session) :
    (setSession srv sid s).min_transcribe_samples =
      srv.min_transcribe_samples := rfl

theorem setSession_chunk_eq (srv : ServerState) (sid : String) (s : Session) :
    (setSession srv sid s).chunk_samples = srv.chunk_samples := rfl

theorem setSession_max_eq (srv : ServerState) (sid : String) (s : Session) :
    (setSession srv sid s).max_transcribe_samples =
      srv.max_transcribe_samples := rfl

theorem handle_audio_scorer_fail (srv : ServerState) (cmd : AudioCommand)
    (orc : Oracle) (session : Session) (pcm : List Nat) (e : String)
    (hs : lookupSession srv cmd.session_id = some session)
    (hact : ¬ (session.is_active = false))
    (hb : orc.b64decode cmd.pcm_b64 = some pcm)
    (hlen : ¬ ((session.audio_buffer ++ pcm).length / 2 <
        srv.min_transcribe_samples))
    (hscore : orc.score 0 = .error e)
    (hchunks : 0 < numVadChunks (min srv.chunk_samples
        ((min (session.audio_buffer ++ pcm).length
          (srv.max_transcribe_samples * 2)) / 2))) :
    handle_audio srv cmd orc =
      (Except.error e,
       { setSession srv cmd.session_id
           { session with audio_buffer := session.audio_buffer ++ pcm }
         with vad := srv.vad }) := by
  rw [handle_audio, hs]
  dsimp only
  rw [if_neg hact, hb]
  dsimp only
  simp only [setSession_vad_eq, setSession_min_eq, setSession_chunk_eq,
    setSession_max_eq]
  rw [if_neg hlen]
  rw [process_audio_run_err0 _ e _ _ hchunks hscore]

end Whisper

namespace Whisper

theorem exSession1_buffer_length : exSession1.audio_buffer.length = 32000 := by
  rw [show exSession1.audio_buffer = List.replicate 32000 0 from rfl,
    List.length_replicate]

/-- **C3** (counterexample).  With one second of buffered audio and a
scorer that raises, `_handle_audio` does NOT return an Error response:
the exception escapes the handler (`Except.error`), the client loop
writes nothing and terminates, while the session object stays in the
registry, active, with its buffered audio intact. -/
theorem C3_counterexample :
    (handle_audio exServerC3 exAudioCmd exOracleFail).1 =
      Except.error "scorer failure" ∧
    client_step exServerC3 exAudioLine exOracleFail =
      (none, false, (handle_audio exServerC3 exAudioCmd exOracleFail).2) ∧
    (lookupSession (handle_audio exServerC3 exAudioCmd exOracleFail).2
      "s1").map Session.is_active = some true ∧
    (lookupSession (handle_audio exServerC3 exAudioCmd exOracleFail).2
      "s1").map Session.audio_buffer = some exSession1.audio_buffer := by
  have hlen : ¬ ((exSession1.audio_buffer ++ []).length / 2 <
      exServerC3.min_transcribe_samples) := by
    rw [List.append_nil, exSession1_buffer_length]
    decide
  have hchunks : 0 < numVadChunks (min exServerC3.chunk_samples
      ((min (exSession1.audio_buffer ++ []).length
        (exServerC3.max_transcribe_samples * 2)) / 2)) := by
    rw [List.append_nil, exSession1_buffer_length]
    decide
  have hrun := handle_audio_scorer_fail exServerC3 exAudioCmd exOracleFail
    exSession1 [] "scorer failure" rfl (by decide) rfl hlen rfl hchunks
  refine ⟨?_, ?_, ?_, ?_⟩
  · rw [hrun]
  · have hpc : (process_command exServerC3 exAudioLine exOracleFail).1 =
        Except.error "scorer failure" := by
      show (handle_audio exServerC3 exAudioCmd exOracleFail).1 = _
      rw [hrun]
    exact client_step_error exServerC3 exAudioLine exOracleFail _ hpc
  · rw [hrun, lookupSession_vad,
      show exAudioCmd.session_id = "s1" from rfl,
      lookupSession_setSession_self]
    rfl
  · rw [hrun, lookupSession_vad,
      show exAudioCmd.session_id = "s1" from rfl,
      lookupSession_setSession_self]
    show some (exSession1.audio_buffer ++ []) = some exSession1.audio_buffer
    rw [List.append_nil]

end Whisper

namespace Whisper

theorem audio_continue_first_ok (X : ServerState) (cmd : AudioCommand)
    (sess : Session) (res : TranscriptionResult) :
    ∃ r, (audio_continue X cmd sess res).1 = Except.ok r := by
  rw [audio_continue]
  dsimp only
  split
  · exact ⟨_, rfl⟩
  · exact ⟨_, rfl⟩

theorem handle_audio_error_lookup (srv : ServerState) (cmd : AudioCommand)
    (orc : Oracle) (session : Session)
    (hs : lookupSession srv cmd.session_id = some session)
    (hact : ¬ (session.is_active = false))
    (pcm : List Nat) (hb : orc.b64decode cmd.pcm_b64 = some pcm)
    (e : String) (herr : (handle_audio srv cmd orc).1 = Except.error e) :
    lookupSession (handle_audio srv cmd orc).2 cmd.session_id =
      some { session with audio_buffer := session.audio_buffer ++ pcm } := by
  rw [handle_audio, hs] at herr ⊢
  dsimp only at herr ⊢
  rw [if_neg hact, hb] at herr ⊢
  dsimp only at herr ⊢
  split
  · rename_i hcond
    rw [if_pos hcond] at herr
    simp at herr
  · rename_i hcond
    rw [if_neg hcond] at herr
    split
    · rename_i e2 v2 hrun
      rw [hrun] at herr
      exact lookupSession_setSession_self { srv with vad := v2 }
        cmd.session_id _
    · rename_i evs v2 hrun
      rw [hrun] at herr
      dsimp only at herr ⊢
      split
      · rename_i e2 htr
        rw [htr] at herr
        exact lookupSession_setSession_self { srv with vad := v2 }
          cmd.session_id _
      · rename_i result htr
        rw [htr] at herr
        dsimp only at herr
        exfalso
        split at herr
        · split at herr
          · split at herr
            · simp at herr
            · obtain ⟨r, hr⟩ := audio_continue_first_ok _ _ _ _
              rw [hr] at herr
              exact absurd herr (by simp)
          · obtain ⟨r, hr⟩ := audio_continue_first_ok _ _ _ _
            rw [hr] at herr
            exact absurd herr (by simp)
        · obtain ⟨r, hr⟩ := audio_continue_first_ok _ _ _ _
          rw [hr] at herr
          exact absurd herr (by simp)

end Whisper

namespace Whisper

/-- **C3** (amended). When the Voice Activity Scorer or ASR backend
call raises during an Audio command for an existing active session
with decodable audio, no Error response is produced: the exception
escapes the handler, the client loop writes nothing and terminates the
connection.  The session does remain in the registry with `is_active`
unchanged, and its buffered audio (the old buffer plus the
just-appended chunk) is preserved. -/
theorem C3_amended_raise_propagates (srv : ServerState) (cmd : AudioCommand)
    (orc : Oracle) (session : Session)
    (hs : lookupSession srv cmd.session_id = some session)
    (hact : session.is_active = true) (pcm : List Nat)
    (hb : orc.b64decode cmd.pcm_b64 = some pcm) (e : String)
    (herr : (handle_audio srv cmd orc).1 = Except.error e) :
    lookupSession (handle_audio srv cmd orc).2 cmd.session_id =
      some { session with audio_buffer := session.audio_buffer ++ pcm } ∧
    (∀ s2, lookupSession (handle_audio srv cmd orc).2 cmd.session_id =
        some s2 → s2.is_active = true) ∧
    client_step srv (JLine.obj ⟨some "AUDIO", some cmd.session_id,
        some cmd.pcm_b64, none, none, none, none⟩) orc =
      (none, false, (handle_audio srv cmd orc).2) := by
  have h1 := handle_audio_error_lookup srv cmd orc session hs
    (by rw [hact]; simp) pcm hb e herr
  refine ⟨h1, ?_, ?_⟩
  · intro s2 hs2
    rw [h1] at hs2
    injection hs2 with hs2
    rw [← hs2]
    exact hact
  · have hpc : process_command srv (JLine.obj ⟨some "AUDIO",
        some cmd.session_id, some cmd.pcm_b64, none, none, none, none⟩) orc =
        handle_audio srv cmd orc := rfl
    have h3 := client_step_error srv _ orc e (by rw [hpc]; exact herr)
    rw [hpc] at h3
    exact h3

/-- Witness for the amended C3 at the concrete scorer-failure run. -/
theorem C3_witness :
    (handle_audio exServerC3 exAudioCmd exOracleFail).1 =
      Except.error "scorer failure" ∧
    lookupSession (handle_audio exServerC3 exAudioCmd exOracleFail).2 "s1" =
      some { exSession1 with
             audio_buffer := exSession1.audio_buffer ++ [] } := by
  have hlen : ¬ ((exSession1.audio_buffer ++ []).length / 2 <
      exServerC3.min_transcribe_samples) := by
    rw [List.append_nil, exSession1_buffer_length]
    decide
  have hchunks : 0 < numVadChunks (min exServerC3.chunk_samples
      ((min (exSession1.audio_buffer ++ []).length
        (exServerC3.max_transcribe_samples * 2)) / 2)) := by
    rw [List.append_nil, exSession1_buffer_length]
    decide
  have hrun := handle_audio_scorer_fail exServerC3 exAudioCmd exOracleFail
    exSession1 [] "scorer failure" rfl (by decide) rfl hlen rfl hchunks
  have herr : (handle_audio exServerC3 exAudioCmd exOracleFail).1 =
      Except.error "scorer failure" := by rw [hrun]
  have h := C3_amended_raise_propagates exServerC3 exAudioCmd exOracleFail
    exSession1 rfl rfl [] rfl "scorer failure" herr
  exact ⟨herr, h.1⟩

end Whisper
